import Mathlib

/-!
Verification of the flowfund core logic: a shallow embedding of the
allocation engine, fund source ledger, account store, pay-period
calculator and occurrence expander, translated from the TypeScript
sources, together with theorems settling the specification claims.

Modelling conventions:
* JS `number` amounts are modelled as exact rationals (`ℚ`).
* JS `Date` values (always normalized to midnight by the code paths in
  scope) are modelled as civil calendar triples (year, 0-based month,
  day) together with a day-number function `daysOfYmd` playing the role
  of the Date time value; comparisons between dates compare day numbers.
* `crypto.randomUUID()` is modelled as an ambient id supply
  `Nat → String`, indexed by the number of ids drawn so far.
* `while` loops that the source can fail to exit (e.g. stepping with a
  non-advancing cadence) are embedded as well-founded recursion that
  returns `Option`, with `none` denoting divergence; the recursion
  stops exactly when one more iteration would not advance the date,
  which for these loops is precisely when the source loops forever.
-/

namespace FlowFund

/-- Money amounts (JS numbers) as exact rationals. -/
abbrev Money := ℚ

/-- An allocation record as produced by the engine
(`src/src/context/AppContext.tsx`, interface `Allocation`). -/
structure Allocation where
  id : String
  accountId : String
  amount : Money
  deriving Repr, DecidableEq

/-- Successive results of `crypto.randomUUID()`. -/
abbrev IdSupply := Nat → String

/-- The `for (const account of accounts)` loop of
`updateFundsAndAllocations` (`src/src/hooks/useAllocation.ts`).  Each
account is paired with its `totalNeeded` (the summed pay-period
outgoings for the account, which the loop computes before the guard);
`k` counts the `crypto.randomUUID()` calls made so far. -/
def allocLoop (ids : IdSupply) (k : Nat) (remainingFunds : Money) :
    List (String × Money) → List Allocation
  | [] => []
  | (accountId, totalNeeded) :: rest =>
    if 0 < totalNeeded ∧ 0 < remainingFunds then
      let alloc := min totalNeeded remainingFunds
      { id := ids k, accountId := accountId, amount := alloc } ::
        allocLoop ids (k + 1) (remainingFunds - alloc) rest
    else
      allocLoop ids k remainingFunds rest

/-- `updateFundsAndAllocations` (`src/src/hooks/useAllocation.ts`): the
allocation list it passes to `updateAllocations`.  `amount` is the total
funds; the early return yields the empty list when `amount <= 0`. -/
def updateFundsAndAllocations (ids : IdSupply) (amount : Money)
    (accounts : List (String × Money)) : List Allocation :=
  if amount ≤ 0 then [] else allocLoop ids 0 amount accounts

/-- Modelled from the spec (§4.4): "Walk `accounts` in their given
order; maintain `remaining = totalFunds`.  For each account with
`required > 0` and `remaining > 0`: allocate `min(required, remaining)`;
subtract from `remaining`; emit one Allocation record for that account;
accounts with `required == 0` are skipped."  Records are reduced to
their (accountId, amount) content. -/
def allocateSpec (remaining : Money) :
    List (String × Money) → List (String × Money)
  | [] => []
  | (accountId, required) :: rest =>
    if 0 < required ∧ 0 < remaining then
      (accountId, min required remaining) ::
        allocateSpec (remaining - min required remaining) rest
    else
      allocateSpec remaining rest

/-- The (accountId, amount) content of an allocation list. -/
def allocProj (l : List Allocation) : List (String × Money) :=
  l.map fun a => (a.accountId, a.amount)

/-- Sum of the amounts of an allocation list. -/
def allocTotal (l : List Allocation) : Money :=
  (l.map Allocation.amount).sum

/-- Total required across an account list. -/
def requiredTotal (accounts : List (String × Money)) : Money :=
  (accounts.map Prod.snd).sum

/-- A fund source (`src/src/types/index.ts`). -/
structure FundSource where
  id : String
  amount : Money
  deriving Repr, DecidableEq

/-- `addFundSource` (`src/src/context/AppContext.tsx`): appends a fresh
source holding the given amount, unchanged. -/
def addFundSource (freshId : String) (fundSources : List FundSource)
    (amount : Money) : List FundSource :=
  fundSources ++ [{ id := freshId, amount := amount }]

/-- `updateFundSource` (`src/src/context/AppContext.tsx`). -/
def updateFundSource (fundSources : List FundSource)
    (updatedSource : FundSource) : List FundSource :=
  fundSources.map fun source =>
    if source.id = updatedSource.id then updatedSource else source

/-- `totalFunds` (`src/src/context/AppContext.tsx`):
`fundSources.reduce((sum, source) => sum + source.amount, 0)`. -/
def totalFunds (fundSources : List FundSource) : Money :=
  (fundSources.map FundSource.amount).sum

end FlowFund

namespace FlowFund

/-! Helper lemmas for the allocation engine. -/

/-- The projected output of the engine loop does not depend on the id
supply or counter and agrees with the spec's description. -/
theorem allocLoop_proj (ids : IdSupply) (k : Nat) (r : Money)
    (accounts : List (String × Money)) :
    allocProj (allocLoop ids k r accounts) = allocateSpec r accounts := by
  induction accounts generalizing k r with
  | nil => simp [allocLoop, allocateSpec, allocProj]
  | cons p rest ih =>
    obtain ⟨a, need⟩ := p
    by_cases h : 0 < need ∧ 0 < r
    · simp only [allocLoop, allocateSpec, if_pos h, allocProj, List.map_cons]
      exact congrArg _ (ih _ _)
    · simp only [allocLoop, allocateSpec, if_neg h]
      exact ih _ _

/-- Every emitted amount is strictly positive. -/
theorem allocLoop_pos (ids : IdSupply) (k : Nat) (r : Money)
    (accounts : List (String × Money)) :
    ∀ a ∈ allocLoop ids k r accounts, 0 < a.amount := by
  induction accounts generalizing k r with
  | nil => simp [allocLoop]
  | cons p rest ih =>
    obtain ⟨a, need⟩ := p
    by_cases h : 0 < need ∧ 0 < r
    · simp only [allocLoop, if_pos h, List.mem_cons]
      rintro x (rfl | hx)
      · exact lt_min h.1 h.2
      · exact ih _ _ x hx
    · simp only [allocLoop, if_neg h]
      exact ih _ _

/-- With no remaining funds the spec loop emits nothing. -/
theorem allocateSpec_nonpos (r : Money) (accounts : List (String × Money))
    (hr : r ≤ 0) : allocateSpec r accounts = [] := by
  induction accounts with
  | nil => rfl
  | cons p rest ih =>
    obtain ⟨a, need⟩ := p
    have : ¬ (0 < need ∧ 0 < r) := by
      rintro ⟨-, h2⟩; exact absurd hr (not_le.mpr h2)
    simp [allocateSpec, this, ih]

/-- Sum of the spec loop's emissions: exactly `min remaining required`. -/
theorem allocateSpec_sum (r : Money) (accounts : List (String × Money))
    (hr : 0 ≤ r) (hpos : ∀ p ∈ accounts, 0 ≤ p.2) :
    ((allocateSpec r accounts).map Prod.snd).sum
      = min r (requiredTotal accounts) := by
  induction accounts generalizing r with
  | nil => simp [allocateSpec, requiredTotal, min_eq_right hr]
  | cons p rest ih =>
    obtain ⟨a, need⟩ := p
    have hneed : 0 ≤ need := hpos (a, need) (List.mem_cons_self _ _)
    have hrest : ∀ q ∈ rest, 0 ≤ q.2 := fun q hq => hpos q (List.mem_cons_of_mem _ hq)
    have hsum : 0 ≤ requiredTotal rest := by
      have hx : ∀ x ∈ rest.map Prod.snd, (0:Money) ≤ x := by
        intro x hx
        obtain ⟨q, hq, rfl⟩ := List.mem_map.mp hx
        exact hrest q hq
      exact List.sum_nonneg hx
    have hreq : requiredTotal ((a, need) :: rest) = need + requiredTotal rest := by
      simp [requiredTotal]
    rw [hreq]
    by_cases h : 0 < need ∧ 0 < r
    · have h1 : 0 ≤ r - min need r := by
        have := min_le_right need r
        linarith
      simp only [allocateSpec, if_pos h, List.map_cons, List.sum_cons]
      rw [ih _ h1 hrest]
      unfold requiredTotal at hsum ⊢
      simp only [min_def]
      split_ifs <;> linarith
    · push_neg at h
      have hcond : ¬ (0 < need ∧ 0 < r) := by
        rintro ⟨hc1, hc2⟩
        exact absurd (h hc1) (not_le.mpr hc2)
      simp only [allocateSpec, if_neg hcond]
      rw [ih _ hr hrest]
      rcases lt_or_le 0 need with hn | hn
      · have hr0 : r = 0 := le_antisymm (h hn) hr
        subst hr0
        rw [min_eq_left hsum, min_eq_left (by linarith)]
      · have hneed0 : need = 0 := le_antisymm hn hneed
        subst hneed0
        rw [zero_add]

/-- The projected engine output agrees with the spec loop for every
total, including the `amount <= 0` early return. -/
theorem updateFunds_proj (ids : IdSupply) (amount : Money)
    (accounts : List (String × Money)) :
    allocProj (updateFundsAndAllocations ids amount accounts)
      = allocateSpec amount accounts := by
  unfold updateFundsAndAllocations
  split
  · next hle =>
    rw [allocateSpec_nonpos _ _ hle]
    rfl
  · exact allocLoop_proj ids 0 amount accounts

/-- Every record emitted by the engine has strictly positive amount. -/
theorem updateFunds_pos (ids : IdSupply) (amount : Money)
    (accounts : List (String × Money)) :
    ∀ a ∈ updateFundsAndAllocations ids amount accounts, 0 < a.amount := by
  unfold updateFundsAndAllocations
  split
  · intro a ha
    simp at ha
  · exact allocLoop_pos ids 0 amount accounts

/-- The engine's total allocated amount, via the spec loop. -/
theorem allocTotal_eq_spec_sum (ids : IdSupply) (amount : Money)
    (accounts : List (String × Money)) :
    allocTotal (updateFundsAndAllocations ids amount accounts)
      = ((allocateSpec amount accounts).map Prod.snd).sum := by
  rw [← updateFunds_proj ids amount accounts]
  simp only [allocTotal, allocProj, List.map_map]
  rfl

/-- C2: updateFundsAndAllocations walks the accounts in exactly their
supplied order with remaining initialized to totalFunds; for each
account whose required amount is > 0 while remaining > 0 it emits
exactly one Allocation of min(required, remaining) and subtracts it
from remaining, and accounts whose required amount is 0 (or for which
no funds remain) produce no record — captured by equality with the
spec-worded loop `allocateSpec`, together with strict positivity of
every emitted amount (no zero-amount records). -/
theorem alloc_greedy_first_fit (ids : IdSupply) (amount : Money)
    (accounts : List (String × Money)) :
    allocProj (updateFundsAndAllocations ids amount accounts)
        = allocateSpec amount accounts
      ∧ ∀ a ∈ updateFundsAndAllocations ids amount accounts, 0 < a.amount :=
  ⟨updateFunds_proj ids amount accounts, updateFunds_pos ids amount accounts⟩

/-- C1 counterexample: with totalFunds = -1 and a single account
requiring 1 (so totalRequired ≥ totalFunds), the engine returns no
allocations; their sum 0 is not ≤ totalFunds, refuting the claim as
stated for arbitrary totalFunds. -/
theorem alloc_conservation_cex :
    ¬ allocTotal (updateFundsAndAllocations (fun _ => "id") (-1)
        [("acct", 1)]) ≤ (-1 : Money) := by
  norm_num [updateFundsAndAllocations, allocTotal]

/-- C1 (amended): for nonnegative totalFunds and nonnegative per-account
required amounts, the sum of all produced Allocation amounts equals
min(totalFunds, totalRequired); hence it is at most totalFunds, equals
totalFunds when totalRequired ≥ totalFunds, and equals totalRequired
when totalRequired < totalFunds. -/
theorem alloc_conservation (ids : IdSupply) (amount : Money)
    (accounts : List (String × Money)) (hamt : 0 ≤ amount)
    (hpos : ∀ p ∈ accounts, 0 ≤ p.2) :
    allocTotal (updateFundsAndAllocations ids amount accounts)
        = min amount (requiredTotal accounts)
      ∧ allocTotal (updateFundsAndAllocations ids amount accounts) ≤ amount
      ∧ (amount ≤ requiredTotal accounts →
          allocTotal (updateFundsAndAllocations ids amount accounts) = amount)
      ∧ (requiredTotal accounts < amount →
          allocTotal (updateFundsAndAllocations ids amount accounts)
            = requiredTotal accounts) := by
  have hmin : allocTotal (updateFundsAndAllocations ids amount accounts)
      = min amount (requiredTotal accounts) := by
    rw [allocTotal_eq_spec_sum, allocateSpec_sum amount accounts hamt hpos]
  refine ⟨hmin, ?_, ?_, ?_⟩
  · rw [hmin]; exact min_le_left _ _
  · intro hle; rw [hmin]; exact min_eq_left hle
  · intro hlt; rw [hmin]; exact min_eq_right (le_of_lt hlt)

/-- Witness for the amended conservation claim at a concrete input. -/
theorem alloc_conservation_witness :
    allocTotal (updateFundsAndAllocations (fun _ => "u") 10
        [("a", 4), ("b", 8)])
      = min 10 (requiredTotal [("a", 4), ("b", 8)]) :=
  (alloc_conservation (fun _ => "u") 10 [("a", 4), ("b", 8)]
    (by norm_num) (by intro p hp; fin_cases hp <;> norm_num)).1

/-- C7: allocation determinism — two runs with identical totalFunds,
identical account order and identical required amounts produce
list-equal (accountId, amount) pairs, independently of the fresh ids
drawn in each run. -/
theorem alloc_deterministic (idsA idsB : IdSupply) (amount : Money)
    (accounts : List (String × Money)) :
    allocProj (updateFundsAndAllocations idsA amount accounts)
      = allocProj (updateFundsAndAllocations idsB amount accounts) := by
  rw [updateFunds_proj, updateFunds_proj]

/-- C8 counterexample: addFundSource stores a negative amount unchanged,
so the stored FundSource amount is negative and the ledger total is
negative, refuting the claimed clamping at the ledger boundary. -/
theorem fundSource_clamp_cex :
    (addFundSource "s1" [] (-5)).map FundSource.amount = [(-5 : Money)]
      ∧ totalFunds (addFundSource "s1" [] (-5)) < 0 := by
  constructor
  · rfl
  · norm_num [totalFunds, addFundSource]

/-- C8 (amended): the ledger's add operation appends the given amount
unchanged (no clamping of negative input), the total is the sum of the
stored amounts, nonnegativity of the total holds only when the existing
amounts and the new amount are nonnegative, and update stores the
supplied record's amount unchanged in every slot it rewrites. -/
theorem fundSource_ledger (freshId : String) (sources : List FundSource)
    (amount : Money) (u : FundSource) :
    (addFundSource freshId sources amount).map FundSource.amount
        = sources.map FundSource.amount ++ [amount]
      ∧ totalFunds (addFundSource freshId sources amount)
          = totalFunds sources + amount
      ∧ ((∀ s ∈ sources, 0 ≤ s.amount) → 0 ≤ amount →
          0 ≤ totalFunds (addFundSource freshId sources amount))
      ∧ ∀ s ∈ updateFundSource sources u, s.amount = u.amount ∨ s ∈ sources := by
  have hadd : totalFunds (addFundSource freshId sources amount)
      = totalFunds sources + amount := by
    simp [totalFunds, addFundSource]
  refine ⟨by simp [addFundSource], hadd, ?_, ?_⟩
  · intro hall hamt
    rw [hadd]
    have hnn : 0 ≤ totalFunds sources := by
      have hx : ∀ x ∈ sources.map FundSource.amount, (0:Money) ≤ x := by
        intro x hx
        obtain ⟨s, hs, rfl⟩ := List.mem_map.mp hx
        exact hall s hs
      exact List.sum_nonneg hx
    linarith
  · intro s hs
    obtain ⟨t, ht, rfl⟩ := List.mem_map.mp hs
    by_cases h : t.id = u.id
    · simp [h]
    · simp [h, ht]

/-- Witness for the amended ledger claim at a concrete input. -/
theorem fundSource_ledger_witness :
    0 ≤ totalFunds (addFundSource "f" [⟨"a", 2⟩] 3) :=
  (fundSource_ledger "f" [⟨"a", 2⟩] 3 ⟨"x", 0⟩).2.2.1
    (by intro s hs; fin_cases hs; norm_num) (by norm_num)

/-!
Calendar model.  JS `Date` values in the code paths in scope are always
at midnight, so a date is a civil triple (year, 0-based month, day).
`daysOfYmd` is the day-number (time value in days) of `new Date(y, m, d)`
in the proleptic Gregorian calendar, with month and day rolling over
exactly as in the host constructor; `normDate` is the corresponding
normalized civil triple, used to model `setDate`/`setMonth`/
`setFullYear`, which read the normalized components back.
-/

/-- JS leap-year rule (proleptic Gregorian). -/
def isLeap (y : Int) : Bool :=
  (y % 4 == 0 && y % 100 != 0) || y % 400 == 0

/-- Count of leap years k with 0 ≤ k < y (negative count for y < 0). -/
def leapsBefore (y : Int) : Int :=
  (y + 3) / 4 - (y + 99) / 100 + (y + 399) / 400

/-- Day number of the first day of year y (civil epoch 0000-01-01). -/
def yearStart (y : Int) : Int := 365 * y + leapsBefore y

/-- Cumulative day count before 0-based month m in a common year. -/
def monthDays (m : Int) : Int :=
  if m ≤ 0 then 0 else if m = 1 then 31 else if m = 2 then 59
  else if m = 3 then 90 else if m = 4 then 120 else if m = 5 then 151
  else if m = 6 then 181 else if m = 7 then 212 else if m = 8 then 243
  else if m = 9 then 273 else if m = 10 then 304 else if m = 11 then 334
  else 365

/-- Cumulative day count before 0-based month m within a year. -/
def monthOffset (leap : Bool) (m : Int) : Int :=
  monthDays m + (if 2 ≤ m ∧ leap = true then 1 else 0)

/-- Length in days of 0-based month m of year y. -/
def monthLen (y m : Int) : Int :=
  if m = 1 then (if isLeap y then 29 else 28)
  else if m = 3 ∨ m = 5 ∨ m = 8 ∨ m = 10 then 30
  else 31

/-- Day number of `new Date(y, m, d)`: month and day may lie outside
their calendar ranges and roll over, exactly as in the host Date
constructor. -/
def daysOfYmd (y m d : Int) : Int :=
  yearStart (y + m / 12) + monthOffset (isLeap (y + m / 12)) (m % 12) + (d - 1)

/-- A civil calendar date as held by a (midnight) JS Date. -/
structure CivDate where
  year : Int
  month : Int
  day : Int
  deriving Repr, DecidableEq

/-- The day-number time value of a date. -/
def toDays (t : CivDate) : Int := daysOfYmd t.year t.month t.day

/-- The triple is in calendar range (what Date normalization produces). -/
def CivDate.dateValid (t : CivDate) : Prop :=
  0 ≤ t.month ∧ t.month ≤ 11 ∧ 1 ≤ t.day ∧ t.day ≤ monthLen t.year t.month

instance (t : CivDate) : Decidable t.dateValid := by
  unfold CivDate.dateValid
  infer_instance

theorem monthLen_bounds (y m : Int) :
    28 ≤ monthLen y m ∧ monthLen y m ≤ 31 := by
  unfold monthLen
  split_ifs <;> norm_num

/-- One more year adds 365 days plus the leap day of the year crossed. -/
theorem yearStart_succ (y : Int) :
    yearStart (y + 1) = yearStart y + 365 + (if isLeap y then 1 else 0) := by
  simp only [yearStart, leapsBefore, isLeap, Bool.or_eq_true, Bool.and_eq_true,
    beq_iff_eq, bne_iff_ne]
  split_ifs with h
  · omega
  · omega

/-- Day numbers are linear in the day component. -/
theorem daysOfYmd_day (y m d k : Int) :
    daysOfYmd y m (d + k) = daysOfYmd y m d + k := by
  simp only [daysOfYmd]
  ring

/-- Rolling the month into the year leaves the day number unchanged. -/
theorem daysOfYmd_shift (y m d : Int) :
    daysOfYmd y m d = daysOfYmd (y + m / 12) (m % 12) d := by
  have h1 : m % 12 / 12 = 0 := by omega
  have h2 : m % 12 % 12 = m % 12 := by omega
  simp only [daysOfYmd, h1, h2, add_zero]

/-- Stepping one month forward from an in-range month adds that month's
length, for any day offset. -/
theorem monthSucc (y m d : Int) (h0 : 0 ≤ m) (h1 : m ≤ 11) :
    daysOfYmd y (m + 1) d = daysOfYmd y m d + monthLen y m := by
  interval_cases m <;>
    norm_num [daysOfYmd, monthOffset, monthDays, monthLen, yearStart_succ] <;>
    (try split_ifs) <;> omega

/-- Stepping one month forward from any month index adds the length of
the (normalized) month stepped over. -/
theorem monthSucc_all (y m d : Int) :
    daysOfYmd y (m + 1) d
      = daysOfYmd y m d + monthLen (y + m / 12) (m % 12) := by
  have hr0 : 0 ≤ m % 12 := by omega
  have hr1 : m % 12 ≤ 11 := by omega
  rw [daysOfYmd_shift y m d]
  rcases lt_or_le (m % 12) 11 with hlt | hge
  · have e1 : (m + 1) / 12 = m / 12 := by omega
    have e2 : (m + 1) % 12 = m % 12 + 1 := by omega
    rw [daysOfYmd_shift y (m + 1) d, e1, e2]
    exact monthSucc _ _ _ hr0 hr1
  · have hr : m % 12 = 11 := le_antisymm hr1 hge
    have e1 : (m + 1) / 12 = m / 12 + 1 := by omega
    have e2 : (m + 1) % 12 = 0 := by omega
    rw [daysOfYmd_shift y (m + 1) d, e1, e2, hr]
    have h11 := monthSucc (y + m / 12) 11 d (by norm_num) (by norm_num)
    norm_num at h11
    rw [← h11]
    have harg : y + m / 12 + 1 = y + (m / 12 + 1) := by ring
    simp only [daysOfYmd]
    norm_num [harg]

/-- One month forward moves the day number up by at least 28 days. -/
theorem daysOfYmd_month_ge (y m d : Int) :
    daysOfYmd y m d + 28 ≤ daysOfYmd y (m + 1) d := by
  rw [monthSucc_all y m d]
  have := monthLen_bounds (y + m / 12) (m % 12)
  omega

/-- Year/month carry of JS date normalization. -/
def normMonth (y m : Int) : Int × Int := (y + m / 12, m % 12)

/-- One month forward within normalized range. -/
def nextMonth (y m : Int) : Int × Int :=
  if m = 11 then (y + 1, 0) else (y, m + 1)

/-- One month back within normalized range. -/
def prevMonth (y m : Int) : Int × Int :=
  if m = 0 then (y - 1, 11) else (y, m - 1)

/-- Day-overflow loop of JS date normalization: push an over-long day
count into the following months. -/
def normDayUp (y m d : Int) : CivDate :=
  if _h : monthLen y m < d then
    normDayUp (nextMonth y m).1 (nextMonth y m).2 (d - monthLen y m)
  else ⟨y, m, d⟩
termination_by d.toNat
decreasing_by
  have := monthLen_bounds y m
  omega

/-- Day-underflow loop of JS date normalization: borrow days from the
preceding months. -/
def normDayDown (y m d : Int) : CivDate :=
  if _h : d < 1 then
    normDayDown (prevMonth y m).1 (prevMonth y m).2
      (d + monthLen (prevMonth y m).1 (prevMonth y m).2)
  else ⟨y, m, d⟩
termination_by (1 - d).toNat
decreasing_by
  have := monthLen_bounds (prevMonth y m).1 (prevMonth y m).2
  omega

/-- JS date normalization: the civil triple held by `new Date(y, m, d)`
(equally, the result of `setFullYear`/`setMonth`/`setDate` writes). -/
def normDate (y m d : Int) : CivDate :=
  let p := normMonth y m
  let u := normDayUp p.1 p.2 d
  normDayDown u.year u.month u.day

theorem nextMonth_days (y m x : Int) (h0 : 0 ≤ m) (h1 : m ≤ 11) :
    daysOfYmd (nextMonth y m).1 (nextMonth y m).2 x = daysOfYmd y (m + 1) x := by
  unfold nextMonth
  split_ifs with hm
  · subst hm
    have h12 : daysOfYmd y 12 x = daysOfYmd (y + 1) 0 x := by
      rw [daysOfYmd_shift y 12 x]
      norm_num
    norm_num [h12]
  · rfl

theorem prevMonth_parts (y m : Int) (h0 : 0 ≤ m) (h1 : m ≤ 11) :
    (prevMonth y m).1 = y + (m - 1) / 12 ∧ (prevMonth y m).2 = (m - 1) % 12 := by
  unfold prevMonth
  split_ifs with hm
  · subst hm
    constructor
    · show y - 1 = y + (0 - 1) / 12
      norm_num
      ring
    · show (11 : Int) = (0 - 1) % 12
      decide
  · constructor
    · show y = y + (m - 1) / 12
      have h2 : (m - 1) / 12 = 0 := by omega
      rw [h2]
      ring
    · show m - 1 = (m - 1) % 12
      omega

theorem normDayUp_spec (y m d : Int) :
    0 ≤ m → m ≤ 11 →
    toDays (normDayUp y m d) = daysOfYmd y m d
      ∧ 0 ≤ (normDayUp y m d).month ∧ (normDayUp y m d).month ≤ 11
      ∧ (normDayUp y m d).day
          ≤ monthLen (normDayUp y m d).year (normDayUp y m d).month := by
  induction y, m, d using normDayUp.induct with
  | case1 y m d h ih =>
    intro h0 h1
    rw [normDayUp, dif_pos h]
    have hn0 : 0 ≤ (nextMonth y m).2 := by
      unfold nextMonth
      split_ifs <;> omega
    have hn1 : (nextMonth y m).2 ≤ 11 := by
      unfold nextMonth
      split_ifs <;> omega
    obtain ⟨ht, hr0, hr1, hrd⟩ := ih hn0 hn1
    refine ⟨?_, hr0, hr1, hrd⟩
    rw [ht, nextMonth_days y m _ h0 h1, monthSucc y m _ h0 h1]
    rw [show d - monthLen y m = d + (-(monthLen y m)) by ring, daysOfYmd_day]
    ring
  | case2 y m d h =>
    intro h0 h1
    rw [normDayUp, dif_neg h]
    exact ⟨rfl, h0, h1, le_of_not_lt h⟩

theorem normDayDown_spec (y m d : Int) :
    0 ≤ m → m ≤ 11 → d ≤ monthLen y m →
    toDays (normDayDown y m d) = daysOfYmd y m d
      ∧ (normDayDown y m d).dateValid := by
  induction y, m, d using normDayDown.induct with
  | case1 y m d h ih =>
    intro h0 h1 hd
    rw [normDayDown, dif_pos h]
    obtain ⟨hp1, hp2⟩ := prevMonth_parts y m h0 h1
    have hq0 : 0 ≤ (prevMonth y m).2 := by rw [hp2]; omega
    have hq1 : (prevMonth y m).2 ≤ 11 := by rw [hp2]; omega
    have hlen := monthLen_bounds (prevMonth y m).1 (prevMonth y m).2
    have hqd : d + monthLen (prevMonth y m).1 (prevMonth y m).2
        ≤ monthLen (prevMonth y m).1 (prevMonth y m).2 := by omega
    obtain ⟨ht, hvalid⟩ := ih hq0 hq1 hqd
    refine ⟨?_, hvalid⟩
    rw [ht, hp1, hp2, ← daysOfYmd_shift]
    have hms := monthSucc_all y (m - 1)
      (d + monthLen (prevMonth y m).1 (prevMonth y m).2)
    rw [show m - 1 + 1 = m by ring, hp1, hp2] at hms
    rw [daysOfYmd_day] at hms
    omega
  | case2 y m d h =>
    intro h0 h1 hd
    rw [normDayDown, dif_neg h]
    exact ⟨rfl, h0, h1, not_lt.mp h, hd⟩

/-- JS date normalization preserves the time value and lands in range. -/
theorem normDate_spec (y m d : Int) :
    toDays (normDate y m d) = daysOfYmd y m d
      ∧ (normDate y m d).dateValid := by
  unfold normDate normMonth
  have h0 : 0 ≤ m % 12 := by omega
  have h1 : m % 12 ≤ 11 := by omega
  obtain ⟨hu, hm0, hm1, hdle⟩ := normDayUp_spec (y + m / 12) (m % 12) d h0 h1
  obtain ⟨hv, hvalid⟩ := normDayDown_spec _ _ _ hm0 hm1 hdle
  refine ⟨?_, hvalid⟩
  rw [hv]
  have : daysOfYmd (normDayUp (y + m / 12) (m % 12) d).year
      (normDayUp (y + m / 12) (m % 12) d).month
      (normDayUp (y + m / 12) (m % 12) d).day
      = toDays (normDayUp (y + m / 12) (m % 12) d) := rfl
  rw [this, hu, ← daysOfYmd_shift]

/-- `date.setDate(date.getDate() + k)`: advance by k calendar days. -/
def addDaysJs (t : CivDate) (k : Int) : CivDate :=
  normDate t.year t.month (t.day + k)

/-- `date.setMonth(date.getMonth() + k)`: advance by k calendar months. -/
def addMonthsJs (t : CivDate) (k : Int) : CivDate :=
  normDate t.year (t.month + k) t.day

/-- `date.setFullYear(date.getFullYear() + k)`: advance by k years. -/
def addYearsJs (t : CivDate) (k : Int) : CivDate :=
  normDate (t.year + k) t.month t.day

theorem addDaysJs_toDays (t : CivDate) (k : Int) :
    toDays (addDaysJs t k) = toDays t + k := by
  unfold addDaysJs
  rw [(normDate_spec _ _ _).1, daysOfYmd_day]
  rfl

theorem addMonthsJs_one_ge (t : CivDate) :
    toDays t + 28 ≤ toDays (addMonthsJs t 1) := by
  unfold addMonthsJs
  rw [(normDate_spec _ _ _).1]
  exact daysOfYmd_month_ge _ _ _

/-- Pay cycle frequency (`src/src/types/index.ts`, `PayCycle`). -/
inductive PayFrequency where
  | monthly
  | biweekly
  | weekly
  deriving Repr, DecidableEq

/-- A pay cycle; `lastPayDate` is the parsed optional ISO date. -/
structure PayCycle where
  dayOfMonth : Int
  frequency : PayFrequency
  lastPayDate : Option CivDate

/-- The weekly/biweekly stepping loop of `getPayPeriod`
(`src/unnamed/part_002`): `while (nextPay <= today) nextPay += step`
with step = 14 (biweekly) or 7 (weekly). -/
def advancePay (biweekly : Bool) (todayN nextPay : Int) : Int :=
  if nextPay ≤ todayN then
    advancePay biweekly todayN (nextPay + if biweekly then 14 else 7)
  else nextPay
termination_by (todayN + 1 - nextPay).toNat
decreasing_by
  split_ifs <;> omega

/-- `getPayPeriod` (`src/unnamed/part_002`): the (startDate, endDate)
day numbers of the pay period containing `today`. -/
def getPayPeriod (pc : PayCycle) (today : CivDate) : Int × Int :=
  match pc.frequency with
  | .monthly =>
    if toDays today < daysOfYmd today.year today.month pc.dayOfMonth then
      (daysOfYmd (if today.month = 0 then today.year - 1 else today.year)
         (if today.month = 0 then 11 else today.month - 1) pc.dayOfMonth,
       daysOfYmd today.year today.month pc.dayOfMonth - 1)
    else
      (daysOfYmd today.year today.month pc.dayOfMonth,
       daysOfYmd (if today.month = 11 then today.year + 1 else today.year)
         (if today.month = 11 then 0 else today.month + 1) pc.dayOfMonth - 1)
  | _ =>
    match pc.lastPayDate with
    | none =>
      if toDays today < daysOfYmd today.year today.month pc.dayOfMonth then
        (daysOfYmd today.year (today.month - 1) pc.dayOfMonth,
         daysOfYmd today.year today.month pc.dayOfMonth - 1)
      else
        (daysOfYmd today.year today.month pc.dayOfMonth,
         daysOfYmd today.year (today.month + 1) pc.dayOfMonth - 1)
    | some lastPay =>
      (toDays lastPay,
       advancePay (pc.frequency = PayFrequency.biweekly) (toDays today)
         (toDays lastPay
           + (if pc.frequency = PayFrequency.biweekly then 14 else 7)) - 1)

/-- C9: with pay cycle {dayOfMonth: 28, monthly}, reference 2024-02-27
yields the period [2024-01-28, 2024-02-27], and reference 2024-02-28
yields [2024-02-28, 2024-03-27] (endDate is the day before the next
payday). -/
theorem payPeriod_boundary_instance :
    getPayPeriod ⟨28, .monthly, none⟩ ⟨2024, 1, 27⟩
        = (daysOfYmd 2024 0 28, daysOfYmd 2024 1 27)
      ∧ getPayPeriod ⟨28, .monthly, none⟩ ⟨2024, 1, 28⟩
        = (daysOfYmd 2024 1 28, daysOfYmd 2024 2 27) := by
  constructor
  · decide
  · decide

/-- C3 counterexample: with dayOfMonth = 31 (within the claimed 1..31
range) and reference date 2024-03-01, the monthly period's startDate is
2024-03-02 (Feb 31 rolls over), which is after the reference date, so
the claimed containment fails. -/
theorem payPeriod_contains_cex :
    ¬ ((getPayPeriod ⟨31, .monthly, none⟩ ⟨2024, 2, 1⟩).1
        ≤ toDays ⟨2024, 2, 1⟩) := by
  decide

/-- The previous-month anchor written with the source's explicit
year-wrap equals the unnormalized month index m - 1. -/
theorem prevAnchor_eq (y m D : Int) :
    daysOfYmd (if m = 0 then y - 1 else y) (if m = 0 then 11 else m - 1) D
      = daysOfYmd y (m - 1) D := by
  by_cases hm : m = 0
  · subst hm
    have hsh := daysOfYmd_shift y (0 - 1) D
    rw [show ((0 : Int) - 1) / 12 = -1 by decide,
      show ((0 : Int) - 1) % 12 = 11 by decide,
      show y + (-1 : Int) = y - 1 by ring] at hsh
    simp only [if_pos rfl, if_true]
    rw [hsh]
  · simp only [if_neg hm]

/-- The next-month anchor written with the source's explicit year-wrap
equals the unnormalized month index m + 1. -/
theorem nextAnchor_eq (y m D : Int) :
    daysOfYmd (if m = 11 then y + 1 else y) (if m = 11 then 0 else m + 1) D
      = daysOfYmd y (m + 1) D := by
  by_cases hm : m = 11
  · subst hm
    have hsh := daysOfYmd_shift y (11 + 1) D
    rw [show ((11 : Int) + 1) / 12 = 1 by decide,
      show ((11 : Int) + 1) % 12 = 0 by decide] at hsh
    simp only [if_pos rfl, if_true]
    rw [hsh]
  · simp only [if_neg hm]

/-- C3 (amended): for a monthly pay cycle with dayOfMonth between 1 and
29, getPayPeriod returns exactly one period and the reference date lies
within [startDate, endDate].  (For dayOfMonth 30-31 the previous-month
anchor can roll over past the reference date and containment can
fail.) -/
theorem payPeriod_monthly_contains (pc : PayCycle) (today : CivDate)
    (hf : pc.frequency = .monthly) (hd1 : 1 ≤ pc.dayOfMonth)
    (hd2 : pc.dayOfMonth ≤ 29) (hv : today.dateValid) :
    (getPayPeriod pc today).1 ≤ toDays today
      ∧ toDays today ≤ (getPayPeriod pc today).2 := by
  obtain ⟨D, f, lp⟩ := pc
  obtain ⟨y, m, d⟩ := today
  simp only at hf hd1 hd2
  subst hf
  obtain ⟨hm0, hm1, hday1, hday2⟩ := hv
  simp only at hm0 hm1 hday1 hday2
  simp only [getPayPeriod, toDays]
  rw [prevAnchor_eq, nextAnchor_eq]
  have htd := daysOfYmd_day y m 1 (d - 1)
  rw [show (1 : Int) + (d - 1) = d by ring] at htd
  have hDd := daysOfYmd_day y m 1 (D - 1)
  rw [show (1 : Int) + (D - 1) = D by ring] at hDd
  split_ifs with hcase
  · -- payday still ahead: period is [previous month's anchor, payday - 1]
    constructor
    · have hprev := monthSucc_all y (m - 1) 1
      rw [show m - 1 + 1 = m by ring] at hprev
      have hlb := monthLen_bounds (y + (m - 1) / 12) ((m - 1) % 12)
      have hlin := daysOfYmd_day y (m - 1) 1 (D - 1)
      rw [show (1 : Int) + (D - 1) = D by ring] at hlin
      simp only
      omega
    · simp only
      omega
  · -- payday reached: period is [payday, next month's anchor - 1]
    constructor
    · simp only
      omega
    · have hnext := monthSucc y m 1 hm0 hm1
      have hlb := monthLen_bounds y m
      have hlin := daysOfYmd_day y (m + 1) 1 (D - 1)
      rw [show (1 : Int) + (D - 1) = D by ring] at hlin
      simp only
      omega

/-- Witness for the amended monthly containment claim. -/
theorem payPeriod_monthly_contains_witness :
    (getPayPeriod ⟨28, .monthly, none⟩ ⟨2024, 1, 27⟩).1
        ≤ toDays ⟨2024, 1, 27⟩
      ∧ toDays ⟨2024, 1, 27⟩
        ≤ (getPayPeriod ⟨28, .monthly, none⟩ ⟨2024, 1, 27⟩).2 :=
  payPeriod_monthly_contains ⟨28, .monthly, none⟩ ⟨2024, 1, 27⟩ rfl
    (by norm_num) (by norm_num) (by decide)

/-- Recurrence cadence (`src/src/types/index.ts`, `RecurrenceType`). -/
inductive RecurrenceType where
  | none
  | daily
  | weekly
  | biweekly
  | monthly
  | quarterly
  | yearly
  deriving Repr, DecidableEq

/-- Custom recurrence unit (`recurrenceUnit`). -/
inductive RecUnit where
  | day
  | week
  | month
  | year
  deriving Repr, DecidableEq

/-- Payment plan frequency. -/
inductive PlanFrequency where
  | weekly
  | biweekly
  | monthly
  deriving Repr, DecidableEq

/-- A payment plan attached to an outgoing; `startDate` is the parsed
plan start date, `installmentAmount` the optional explicit override. -/
structure PaymentPlan where
  enabled : Bool
  startDate : CivDate
  frequency : PlanFrequency
  installmentAmount : Option Money
  deriving Repr, DecidableEq

/-- An outgoing, with the fields read by the occurrence logic; ISO date
strings are modelled as their parsed civil dates. -/
structure Outgoing where
  id : String
  name : String
  amount : Money
  dueDate : CivDate
  recurrence : RecurrenceType
  isCustomRecurrence : Bool
  recurrenceInterval : Option Int
  recurrenceUnit : Option RecUnit
  accountId : String
  isPaused : Bool
  paymentPlan : Option PaymentPlan
  deriving Repr, DecidableEq

/-- An account (`src/src/types/index.ts`). -/
structure Account where
  id : String
  name : String
  deriving Repr, DecidableEq

/-- The entity collections owned by the app context that deleteAccount
can touch. -/
structure AppState where
  accounts : List Account
  outgoings : List Outgoing
  deriving Repr, DecidableEq

/-- `deleteAccount` (`src/src/context/AppContext.tsx`): refuse the
deletion when some outgoing references the account (alert and return),
otherwise filter the account out of the accounts collection. -/
def deleteAccount (st : AppState) (i : String) : AppState :=
  if st.outgoings.any (fun o => o.accountId == i) then st
  else { st with accounts := st.accounts.filter (fun a => a.id ≠ i) }

/-- C10: if some outgoing references the id, deleteAccount leaves the
state entirely unchanged; otherwise it removes exactly the accounts
with that id, keeps every other account in order, and leaves the
outgoings collection unchanged. -/
theorem deleteAccount_atomic (st : AppState) (i : String) :
    ((∃ o ∈ st.outgoings, o.accountId = i) → deleteAccount st i = st)
      ∧ (¬ (∃ o ∈ st.outgoings, o.accountId = i) →
          (deleteAccount st i).accounts
              = st.accounts.filter (fun a => a.id ≠ i)
            ∧ (deleteAccount st i).outgoings = st.outgoings) := by
  constructor
  · intro h
    unfold deleteAccount
    rw [if_pos]
    rw [List.any_eq_true]
    obtain ⟨o, ho, hoa⟩ := h
    exact ⟨o, ho, by simp [hoa]⟩
  · intro h
    unfold deleteAccount
    rw [if_neg]
    · exact ⟨rfl, rfl⟩
    · rw [List.any_eq_true]
      rintro ⟨o, ho, hoa⟩
      exact h ⟨o, ho, by simpa using hoa⟩

/-- A sample outgoing used to instantiate claims about the account
store at concrete inputs. -/
def sampleOutgoing : Outgoing :=
  { id := "o1", name := "Rent", amount := 10, dueDate := ⟨2024, 0, 1⟩,
    recurrence := .monthly, isCustomRecurrence := false,
    recurrenceInterval := Option.none, recurrenceUnit := Option.none,
    accountId := "a1", isPaused := false, paymentPlan := Option.none }

/-- Witness for the account deletion claim: deleting a referenced
account is rejected. -/
theorem deleteAccount_atomic_witness :
    deleteAccount ⟨[⟨"a1", "Bills"⟩], [sampleOutgoing]⟩ "a1"
      = ⟨[⟨"a1", "Bills"⟩], [sampleOutgoing]⟩ :=
  (deleteAccount_atomic ⟨[⟨"a1", "Bills"⟩], [sampleOutgoing]⟩ "a1").1
    ⟨sampleOutgoing, by simp, rfl⟩

/-- JS truthiness of the optional recurrenceInterval (`!interval` is
true for undefined and for 0). -/
def intervalTruthy (i : Option Int) : Bool :=
  match i with
  | Option.none => false
  | some v => v != 0

/-- One custom-recurrence step: the switch on recurrenceUnit shared by
getNextOccurrence and the expander loops. -/
def customStep (interval : Int) (u : RecUnit) (t : CivDate) : CivDate :=
  match u with
  | .day => addDaysJs t interval
  | .week => addDaysJs t (7 * interval)
  | .month => addMonthsJs t interval
  | .year => addYearsJs t interval

/-- One named-cadence step of getNextOccurrence (the switch on
recurrence; `none` has no case there and leaves the date unchanged). -/
def namedStep (r : RecurrenceType) (t : CivDate) : CivDate :=
  match r with
  | .daily => addDaysJs t 1
  | .weekly => addDaysJs t 7
  | .biweekly => addDaysJs t 14
  | .monthly => addMonthsJs t 1
  | .quarterly => addMonthsJs t 3
  | .yearly => addYearsJs t 1
  | .none => t

/-- `while (nextDate < now) step`: advance until on/after `now`;
`Option.none` models the source looping forever because the step fails
to advance the date (it then never advances on any later iteration
either, all steps being translations of fixed sign). -/
def stepUntil (step : CivDate → CivDate) (now : Int) (t : CivDate) :
    Option CivDate :=
  if toDays t < now then
    if toDays (step t) ≤ toDays t then Option.none
    else stepUntil step now (step t)
  else some t
termination_by (now - toDays t).toNat
decreasing_by omega

/-- `getNextOccurrence` (`src/src/utils/formatters.ts`): the next
occurrence of `date` on the given cadence on or after `now` (dates are
normalized to midnight, hence day numbers). -/
def getNextOccurrence (now : Int) (date : CivDate)
    (recurrence : RecurrenceType) (recurrenceInterval : Option Int)
    (recurrenceUnit : Option RecUnit) : Option CivDate :=
  if now ≤ toDays date then some date
  else if recurrence = .none ∧ intervalTruthy recurrenceInterval = false then
    some date
  else if intervalTruthy recurrenceInterval = true ∧ recurrenceUnit.isSome then
    match recurrenceInterval, recurrenceUnit with
    | some i, some u => stepUntil (customStep i u) now date
    | _, _ => some date
  else
    stepUntil (namedStep recurrence) now date

/-- `outgoing.paymentPlan?.enabled` as a Bool. -/
def planEnabled (o : Outgoing) : Bool :=
  match o.paymentPlan with
  | Option.none => false
  | some p => p.enabled

/-- One payment-plan step: the frequency switch of the plan loops. -/
def planStep (f : PlanFrequency) (t : CivDate) : CivDate :=
  match f with
  | .weekly => addDaysJs t 7
  | .biweekly => addDaysJs t 14
  | .monthly => addMonthsJs t 1

/-- Every plan step advances the date by at least 7 days. -/
theorem planStep_advance (f : PlanFrequency) (t : CivDate) :
    toDays t + 7 ≤ toDays (planStep f t) := by
  cases f
  · rw [planStep, addDaysJs_toDays]
  · rw [planStep, addDaysJs_toDays]
    omega
  · rw [planStep]
    have := addMonthsJs_one_ge t
    omega

/-- First plan loop of the expander: count the installments from the
plan start up to (exclusive) the due date. -/
def countInstallments (f : PlanFrequency) (due : Int) (t : CivDate) : Nat :=
  if toDays t < due then 1 + countInstallments f due (planStep f t) else 0
termination_by (due - toDays t).toNat
decreasing_by
  have := planStep_advance f t
  omega

/-- `Math.ceil(x * 100) / 100`. -/
def ceilCents (x : Money) : Money := (⌈x * 100⌉ : Int) / 100

/-- The record pushed for installment number k of n. -/
def installmentRecord (o : Outgoing) (amt : Money) (k n : Nat) : Outgoing :=
  { o with
      id := o.id ++ "-installment-" ++ toString k,
      amount := amt,
      name := o.name ++ " (Installment " ++ toString k ++ "/"
        ++ toString n ++ ")" }

/-- Second plan loop of the expander: emit the installments whose dates
fall within the pay period, numbered from 1. -/
def planOccurrences (o : Outgoing) (f : PlanFrequency) (amt : Money)
    (n : Nat) (startN endN due : Int) (t : CivDate) (k : Nat) :
    List Outgoing :=
  if toDays t < due then
    (if startN ≤ toDays t ∧ toDays t ≤ endN
      then [installmentRecord o amt k n] else [])
      ++ planOccurrences o f amt n startN endN due (planStep f t) (k + 1)
  else []
termination_by (due - toDays t).toNat
decreasing_by
  have := planStep_advance f t
  omega

/-- The payment-plan branch of getOutgoingOccurrencesInPayPeriod:
malformed plans (start on/after due) expand to nothing; otherwise the
installment amount is the explicit override or the ceiling-rounded
per-installment share. -/
def expandPlan (o : Outgoing) (p : PaymentPlan) (startN endN : Int) :
    List Outgoing :=
  if toDays o.dueDate ≤ toDays p.startDate then []
  else
    let n := countInstallments p.frequency (toDays o.dueDate) p.startDate
    let amt :=
      match p.installmentAmount with
      | some a => a
      | Option.none => if 0 < n then ceilCents (o.amount / n) else o.amount
    planOccurrences o p.frequency amt n startN endN (toDays o.dueDate)
      p.startDate 1

/-- Is the custom-recurrence step selected inside the expander loops
(`isCustomRecurrence && recurrenceInterval && recurrenceUnit`)? -/
def customSelected (o : Outgoing) : Prop :=
  o.isCustomRecurrence = true ∧ intervalTruthy o.recurrenceInterval = true
    ∧ o.recurrenceUnit.isSome = true

instance (o : Outgoing) : Decidable (customSelected o) := by
  unfold customSelected
  infer_instance

/-- One step of the recurring-branch loops: the custom switch when
selected, else the named cadence switch (cadences without a case leave
the date unchanged, as in the source). -/
def recurStep (o : Outgoing) (t : CivDate) : CivDate :=
  if customSelected o then
    match o.recurrenceInterval, o.recurrenceUnit with
    | some i, some u => customStep i u t
    | _, _ => t
  else
    match o.recurrence with
    | .weekly => addDaysJs t 7
    | .biweekly => addDaysJs t 14
    | .monthly => addMonthsJs t 1
    | .quarterly => addMonthsJs t 3
    | .yearly => addYearsJs t 1
    | _ => t

/-- Catch-up loop of the recurring branch: advance to the first
occurrence on/after startN.  `some Option.none` models the source's
`return []` when a step overshoots endN; `Option.none` models the
source looping forever on a non-advancing (or backwards) step. -/
def catchUp (o : Outgoing) (startN endN : Int) (t : CivDate) :
    Option (Option CivDate) :=
  if toDays t < startN then
    if endN < toDays (recurStep o t) then some Option.none
    else if toDays (recurStep o t) ≤ toDays t then Option.none
    else catchUp o startN endN (recurStep o t)
  else some (some t)
termination_by (startN - toDays t).toNat
decreasing_by omega

/-- Emission loop of the recurring branch: push the occurrence when it
is inside the window, and keep stepping only for custom or
weekly/biweekly cadences; `Option.none` models the source pushing
forever on a non-advancing custom step inside the window. -/
def emitLoop (o : Outgoing) (endN : Int) (t : CivDate) :
    Option (List Outgoing) :=
  if customSelected o ∨ o.recurrence = .weekly ∨ o.recurrence = .biweekly then
    if toDays (recurStep o t) ≤ endN then
      if toDays (recurStep o t) ≤ toDays t then Option.none
      else
        (emitLoop o endN (recurStep o t)).map
          (fun rest => (if toDays t ≤ endN then [o] else []) ++ rest)
    else some (if toDays t ≤ endN then [o] else [])
  else some (if toDays t ≤ endN then [o] else [])
termination_by (endN - toDays t).toNat
decreasing_by omega

/-- `getOutgoingOccurrencesInPayPeriod` (`src/src/hooks/useAllocation.ts`):
all occurrences of the outgoing within the pay period [startN, endN];
`Option.none` models the source failing to terminate. -/
def getOutgoingOccurrencesInPayPeriod (now : Int) (o : Outgoing)
    (startN endN : Int) : Option (List Outgoing) :=
  if o.isPaused then some []
  else if planEnabled o then
    match o.paymentPlan with
    | some p => some (expandPlan o p startN endN)
    | Option.none => some []
  else if o.recurrence = .none ∧ o.isCustomRecurrence = false then
    match getNextOccurrence now o.dueDate o.recurrence Option.none Option.none with
    | some nextDate =>
      some (if startN ≤ toDays nextDate ∧ toDays nextDate ≤ endN
        then [o] else [])
    | Option.none => Option.none
  else
    match getNextOccurrence now o.dueDate o.recurrence
        (if o.isCustomRecurrence then o.recurrenceInterval else Option.none)
        (if o.isCustomRecurrence then o.recurrenceUnit else Option.none) with
    | Option.none => Option.none
    | some c0 =>
      if endN < toDays c0 then some []
      else
        match catchUp o startN endN c0 with
        | Option.none => Option.none
        | some Option.none => some []
        | some (some c1) => emitLoop o endN c1

/-- A sample one-time outgoing whose due date lies beyond the test
window. -/
def onceSample : Outgoing :=
  { id := "o2", name := "Insurance", amount := 25, dueDate := ⟨2024, 5, 20⟩,
    recurrence := .none, isCustomRecurrence := false,
    recurrenceInterval := Option.none, recurrenceUnit := Option.none,
    accountId := "a1", isPaused := false, paymentPlan := Option.none }

/-- C4 counterexample: the one-time candidate 2024-06-20 is on/after
windowStart 2024-06-01 but beyond windowEnd 2024-06-10; the claim says
it must still be emitted, yet the expander returns no occurrences. -/
theorem once_beyond_window_cex :
    getOutgoingOccurrencesInPayPeriod (toDays ⟨2024, 5, 1⟩) onceSample
        (toDays ⟨2024, 5, 1⟩) (toDays ⟨2024, 5, 10⟩) = some []
      ∧ toDays ⟨2024, 5, 1⟩ ≤ toDays onceSample.dueDate
      ∧ toDays ⟨2024, 5, 10⟩ < toDays onceSample.dueDate := by
  refine ⟨by decide, by decide, by decide⟩

/-- C4 (amended): for an active one-time outgoing (recurrence none, no
custom interval, not paused, no enabled plan), getNextOccurrence
returns the due date unchanged even when it lies in the past, and the
expander emits the single candidate iff windowStart ≤ candidate ≤
windowEnd — a candidate beyond windowEnd is dropped, not surfaced. -/
theorem once_occurrence_rule (now startN endN : Int) (o : Outgoing)
    (hrec : o.recurrence = .none) (hcust : o.isCustomRecurrence = false)
    (hpause : o.isPaused = false) (hplan : planEnabled o = false) :
    getNextOccurrence now o.dueDate o.recurrence Option.none Option.none
        = some o.dueDate
      ∧ getOutgoingOccurrencesInPayPeriod now o startN endN
        = some (if startN ≤ toDays o.dueDate ∧ toDays o.dueDate ≤ endN
            then [o] else []) := by
  have hgno : getNextOccurrence now o.dueDate o.recurrence Option.none
      Option.none = some o.dueDate := by
    unfold getNextOccurrence
    rw [hrec]
    by_cases hnow : now ≤ toDays o.dueDate
    · rw [if_pos hnow]
    · rw [if_neg hnow, if_pos ⟨rfl, rfl⟩]
  refine ⟨hgno, ?_⟩
  unfold getOutgoingOccurrencesInPayPeriod
  rw [hpause, hplan]
  simp only [Bool.false_eq_true, if_false]
  rw [if_pos ⟨hrec, hcust⟩, hgno]

/-- A sample one-time outgoing due inside the test window. -/
def onceInsideSample : Outgoing :=
  { onceSample with id := "o2b", dueDate := ⟨2024, 5, 5⟩ }

/-- Witness for the amended one-time rule at a concrete input. -/
theorem once_occurrence_rule_witness :
    getNextOccurrence (toDays ⟨2024, 5, 1⟩) onceInsideSample.dueDate
        onceInsideSample.recurrence Option.none Option.none
        = some onceInsideSample.dueDate
      ∧ getOutgoingOccurrencesInPayPeriod (toDays ⟨2024, 5, 1⟩)
        onceInsideSample (toDays ⟨2024, 5, 1⟩) (toDays ⟨2024, 5, 10⟩)
        = some (if toDays ⟨2024, 5, 1⟩ ≤ toDays onceInsideSample.dueDate
            ∧ toDays onceInsideSample.dueDate ≤ toDays ⟨2024, 5, 10⟩
            then [onceInsideSample] else []) :=
  once_occurrence_rule (toDays ⟨2024, 5, 1⟩) (toDays ⟨2024, 5, 1⟩)
    (toDays ⟨2024, 5, 10⟩) onceInsideSample rfl rfl rfl rfl

/-- A sample weekly outgoing whose next occurrence lies beyond the test
window. -/
def weeklySample : Outgoing :=
  { id := "o3", name := "Groceries", amount := 40, dueDate := ⟨2024, 6, 1⟩,
    recurrence := .weekly, isCustomRecurrence := false,
    recurrenceInterval := Option.none, recurrenceUnit := Option.none,
    accountId := "a1", isPaused := false, paymentPlan := Option.none }

/-- C5 counterexample: an active weekly outgoing whose first occurrence
(2024-07-01) exceeds windowEnd (2024-06-10) yields zero occurrences,
not the promised sole upcoming occurrence. -/
theorem recurring_beyond_window_cex :
    getOutgoingOccurrencesInPayPeriod (toDays ⟨2024, 5, 1⟩) weeklySample
        (toDays ⟨2024, 5, 1⟩) (toDays ⟨2024, 5, 10⟩) = some []
      ∧ weeklySample.isPaused = false
      ∧ planEnabled weeklySample = false
      ∧ weeklySample.recurrence = RecurrenceType.weekly
      ∧ toDays ⟨2024, 5, 10⟩ < toDays weeklySample.dueDate := by
  refine ⟨by decide, rfl, rfl, rfl, by decide⟩

/-- C5 (amended): for an active recurring outgoing, when the next
occurrence computed by getNextOccurrence already exceeds windowEnd, the
expander returns zero occurrences (the empty list), rather than
emitting that occurrence as a sole result. -/
theorem recurring_beyond_window (now startN endN : Int) (o : Outgoing)
    (c : CivDate) (hpause : o.isPaused = false)
    (hplan : planEnabled o = false)
    (hrec : ¬ (o.recurrence = .none ∧ o.isCustomRecurrence = false))
    (hnext : getNextOccurrence now o.dueDate o.recurrence
        (if o.isCustomRecurrence then o.recurrenceInterval else Option.none)
        (if o.isCustomRecurrence then o.recurrenceUnit else Option.none)
        = some c)
    (hbeyond : endN < toDays c) :
    getOutgoingOccurrencesInPayPeriod now o startN endN = some [] := by
  unfold getOutgoingOccurrencesInPayPeriod
  rw [hpause, hplan]
  simp only [Bool.false_eq_true, if_false]
  rw [if_neg hrec, hnext]
  exact if_pos hbeyond

/-- Witness for the amended beyond-window rule at a concrete input. -/
theorem recurring_beyond_window_witness :
    getOutgoingOccurrencesInPayPeriod (toDays ⟨2024, 5, 1⟩) weeklySample
      (toDays ⟨2024, 5, 1⟩) (toDays ⟨2024, 5, 10⟩) = some [] :=
  recurring_beyond_window (toDays ⟨2024, 5, 1⟩) (toDays ⟨2024, 5, 1⟩)
    (toDays ⟨2024, 5, 10⟩) weeklySample ⟨2024, 6, 1⟩ rfl rfl
    (by decide) (by decide) (by decide)

/-- Every record emitted by the plan emission loop carries the computed
installment amount. -/
theorem planOccurrences_amount (o : Outgoing) (f : PlanFrequency)
    (amt : Money) (n : Nat) (startN endN due : Int) (t : CivDate) (k : Nat) :
    ∀ occ ∈ planOccurrences o f amt n startN endN due t k,
      occ.amount = amt := by
  induction t, k using planOccurrences.induct o f amt n startN endN due with
  | case1 t k h ih =>
    intro occ hocc
    rw [planOccurrences, if_pos h] at hocc
    rcases List.mem_append.mp hocc with hmem | hmem
    · split_ifs at hmem with hw
      · rcases List.mem_singleton.mp hmem with rfl
        rfl
      · simp at hmem
    · exact ih occ hmem
  | case2 t k h =>
    intro occ hocc
    rw [planOccurrences, if_neg h] at hocc
    simp at hocc

/-- Ceiling to cents never rounds down. -/
theorem le_ceilCents (x : Money) : x ≤ ceilCents x := by
  unfold ceilCents
  rw [le_div_iff₀ (by norm_num : (0:ℚ) < 100)]
  exact_mod_cast Int.le_ceil (x * 100)

/-- n ceiling-rounded installments cover the total. -/
theorem ceilCents_coverage (a : Money) (n : Nat) (hn : 0 < n) :
    a ≤ n * ceilCents (a / n) := by
  have hpos : (0:Money) < n := by exact_mod_cast hn
  have h1 : a / n ≤ ceilCents (a / n) := le_ceilCents _
  have h2 : (n : Money) * (a / n) = a := by
    field_simp
  calc a = (n : Money) * (a / n) := h2.symm
    _ ≤ (n : Money) * ceilCents (a / n) :=
        mul_le_mul_of_nonneg_left h1 (le_of_lt hpos)

/-- C6: for every enabled payment plan with startDate < dueDate and no
explicit installmentAmount, the installment count N obtained by
stepping from startDate to dueDate (exclusive) at the plan frequency is
positive, each expanded installment's amount is ceil(total/N*100)/100,
and N times that amount is at least the outgoing's total; in
particular ceil(100/3*100)/100 = 33.34, and three such installments
sum to 100.02 ≥ 100. -/
theorem installment_amount_coverage (o : Outgoing) (p : PaymentPlan)
    (startN endN : Int) (hen : p.enabled = true)
    (hno : p.installmentAmount = Option.none)
    (hlt : toDays p.startDate < toDays o.dueDate) :
    0 < countInstallments p.frequency (toDays o.dueDate) p.startDate
      ∧ (∀ occ ∈ expandPlan o p startN endN,
          occ.amount = ceilCents (o.amount /
            (countInstallments p.frequency (toDays o.dueDate) p.startDate : Money)))
      ∧ o.amount
          ≤ (countInstallments p.frequency (toDays o.dueDate) p.startDate : Money)
            * ceilCents (o.amount /
              (countInstallments p.frequency (toDays o.dueDate) p.startDate : Money))
      ∧ ceilCents ((100 : Money) / 3) = 3334 / 100
      ∧ (3 : Money) * ceilCents ((100 : Money) / 3) = 10002 / 100
      ∧ (100 : Money) ≤ 10002 / 100 := by
  have hN : 0 < countInstallments p.frequency (toDays o.dueDate) p.startDate := by
    rw [countInstallments, if_pos hlt]
    omega
  refine ⟨hN, ?_, ceilCents_coverage o.amount _ hN, ?_, ?_, by norm_num⟩
  case refine_2 =>
    rw [ceilCents]
    rw [show (100 : Money) / 3 * 100 = 10000 / 3 by ring]
    rw [show ⌈(10000 : Money) / 3⌉ = 3334 by
      rw [Int.ceil_eq_iff]
      norm_num]
    norm_num
  case refine_3 =>
    rw [ceilCents]
    rw [show (100 : Money) / 3 * 100 = 10000 / 3 by ring]
    rw [show ⌈(10000 : Money) / 3⌉ = 3334 by
      rw [Int.ceil_eq_iff]
      norm_num]
    norm_num
  intro occ hocc
  rw [expandPlan, if_neg (not_le.mpr hlt), hno] at hocc
  simp only [if_pos hN] at hocc
  exact planOccurrences_amount o p.frequency _ _ startN endN _ _ 1 occ hocc

/-- The payment plan of the spec's worked example: 100 total from
2024-01-01 to 2024-04-01 at monthly cadence, no explicit amount. -/
def planSample : PaymentPlan :=
  { enabled := true, startDate := ⟨2024, 0, 1⟩, frequency := .monthly,
    installmentAmount := Option.none }

/-- The outgoing of the spec's worked example. -/
def planOutgoingSample : Outgoing :=
  { id := "o4", name := "Debt", amount := 100, dueDate := ⟨2024, 3, 1⟩,
    recurrence := .none, isCustomRecurrence := false,
    recurrenceInterval := Option.none, recurrenceUnit := Option.none,
    accountId := "a1", isPaused := false, paymentPlan := some planSample }

/-- Witness for the installment claim at the spec's worked example. -/
theorem installment_amount_coverage_witness :
    0 < countInstallments planSample.frequency
        (toDays planOutgoingSample.dueDate) planSample.startDate :=
  (installment_amount_coverage planOutgoingSample planSample 0 30 rfl rfl
    (by decide)).1
